import Mathlib

/-!
# Verification of the tinytga TGA decoder

Shallow embedding of the tinytga decoding core (header parsing, the RLE
decompression state machine, the position-aware raw-pixel iterator and the
typed image facade) together with theorems settling the specification
claims.  Bytes are modelled as `Nat` values (the inputs of interest are
`< 256`), machine words as `Nat` with explicit masking where the code
truncates, slices as `List Nat`, and fallible operations as `Option` /
`Except`.
-/

namespace Tinytga

/-! ## Header data model (src/header.rs) -/

/-- Bits per pixel (`Bpp` in src/header.rs). -/
inductive Bpp where
  | Bits8
  | Bits16
  | Bits24
  | Bits32
deriving DecidableEq, Repr

/-- `Bpp::new`: classify the raw depth byte, `none` for any unsupported value. -/
def Bpp.new (value : Nat) : Option Bpp :=
  match value with
  | 8 => some .Bits8
  | 16 => some .Bits16
  | 24 => some .Bits24
  | 32 => some .Bits32
  | _ => none

/-- `Bpp::bits`: the number of bits. -/
def Bpp.bits : Bpp → Nat
  | .Bits8 => 8
  | .Bits16 => 16
  | .Bits24 => 24
  | .Bits32 => 32

/-- `Bpp::bytes`: the number of bytes needed to store values with this bit depth. -/
def Bpp.bytes : Bpp → Nat
  | .Bits8 => 1
  | .Bits16 => 2
  | .Bits24 => 3
  | .Bits32 => 4

/-- Image data compression (`Compression` in src/header.rs). -/
inductive Compression where
  | Uncompressed
  | Rle
deriving DecidableEq, Repr

/-- Image data type (`DataType` in src/header.rs). -/
inductive DataType where
  | NoData
  | ColorMapped
  | TrueColor
  | BlackAndWhite
deriving DecidableEq, Repr

/-- Image origin (`ImageOrigin` in src/header.rs). -/
inductive ImageOrigin where
  | BottomLeft
  | BottomRight
  | TopLeft
  | TopRight
deriving DecidableEq, Repr

/-- `ImageOrigin::from_image_descriptor`: bits 4–5 of the image descriptor byte. -/
def ImageOrigin.fromImageDescriptor (value : Nat) : ImageOrigin :=
  match (value &&& 0x30) >>> 4 with
  | 0 => .BottomLeft
  | 1 => .BottomRight
  | 2 => .TopLeft
  | _ => .TopRight

/-- `ImageOrigin::is_bottom`. -/
def ImageOrigin.isBottom : ImageOrigin → Bool
  | .BottomLeft => true
  | .BottomRight => true
  | _ => false

/-- Parse errors (`ParseError`).  `parse_error.rs` is not part of the sources;
the variants are the ones constructed by src/header.rs, src/raw_tga.rs and
src/lib.rs, matching the error taxonomy of the spec (structural header error,
invalid color-map flag, unsupported image type, unsupported type/bit-depth
combination). -/
inductive ParseError where
  | Header
  | ColorMap
  | UnsupportedImageType (b : Nat)
  | UnsupportedTgaType (dataType : DataType) (compression : Compression) (bpp : Bpp)
deriving DecidableEq, Repr

instance {ε α : Type} [DecidableEq ε] [DecidableEq α] : DecidableEq (Except ε α) := fun a b =>
  match a, b with
  | .ok x, .ok y =>
    if h : x = y then isTrue (by rw [h]) else isFalse (by intro hh; cases hh; exact h rfl)
  | .ok _, .error _ => isFalse (by intro h; cases h)
  | .error _, .ok _ => isFalse (by intro h; cases h)
  | .error x, .error y =>
    if h : x = y then isTrue (by rw [h]) else isFalse (by intro hh; cases hh; exact h rfl)

/-- `parse_image_type` (src/header.rs:85-104): classify the image-type byte
into a (data kind, compression) pair, rejecting any byte that uses a bit
outside {0,1,3} and the reserved value 8. -/
def parse_image_type (image_type : Nat) : Except ParseError (DataType × Compression) :=
  if image_type &&& 0xF4 ≠ 0 ∨ image_type = 8 then
    .error (.UnsupportedImageType image_type)
  else
    let data_type : DataType :=
      match image_type &&& 0x3 with
      | 1 => .ColorMapped
      | 2 => .TrueColor
      | 3 => .BlackAndWhite
      | _ => .NoData
    let compression : Compression :=
      if image_type &&& 0x8 ≠ 0 then .Rle else .Uncompressed
    .ok (data_type, compression)

/-- The data kind the claim says bits 0–1 select. -/
def claimDataKind (lowBits : Nat) : DataType :=
  match lowBits with
  | 0 => .NoData
  | 1 => .ColorMapped
  | 2 => .TrueColor
  | _ => .BlackAndWhite

/-- The compression the claim says bit 3 selects. -/
def claimCompression (bit3 : Bool) : Compression :=
  if bit3 then .Rle else .Uncompressed

/-! ## Raw color decoding (src/raw_iter.rs, `NextColor` impls) -/

/-- Little-endian value of a byte slice; each entry is reduced mod 256 because
the source reads `u8` bytes.  A 3-byte slice is zero-extended into the high
byte exactly as `RawU24`'s `next_color` builds a `u32` from `[b0,b1,b2,0]`. -/
def leNum : List Nat → Nat
  | [] => 0
  | b :: rest => b % 256 + 256 * leNum rest

/-- The four `NextColor` impls (src/raw_iter.rs:52-96): read the next 1, 2, 3
or 4 bytes little-endian and advance the cursor; `none` when fewer bytes than
the storage width remain (`split_first` / `get(0..n)` fails). -/
def nextColor (bpp : Bpp) (data : List Nat) : Option (Nat × List Nat) :=
  match bpp with
  | .Bits8 =>
    match data with
    | [] => none
    | b :: rest => some (b % 256, rest)
  | .Bits16 => if 2 ≤ data.length then some (leNum (data.take 2), data.drop 2) else none
  | .Bits24 => if 3 ≤ data.length then some (leNum (data.take 3), data.drop 3) else none
  | .Bits32 => if 4 ≤ data.length then some (leNum (data.take 4), data.drop 4) else none

/-- `Iterator for RawColors<R, Uncompressed>` (src/raw_iter.rs:98-108): the
next color, or a zero-valued pixel (with the cursor unchanged) once the data
is exhausted.  Never terminates by itself. -/
def uncompressedNext (bpp : Bpp) (data : List Nat) : Nat × List Nat :=
  match nextColor bpp data with
  | some (c, rest) => (c, rest)
  | none => (0, data)

/-- The mutable state of `RawColors` used by the RLE iterator
(src/raw_iter.rs:17-26): the remaining bytes, the cached repeat pixel and the
two packet counters. -/
structure RleState where
  data : List Nat
  rlePixel : Nat
  rleRepeat : Nat
  rleTakeRaw : Nat
deriving DecidableEq, Repr

/-- The `rle_repeat > 0` branch of the RLE iterator: decrement the counter and
emit `R::from_u32(self.rle_pixel)` (truncated to the storage width). -/
def rleEmitRepeat (bpp : Bpp) (s : RleState) : Option Nat × RleState :=
  (some (s.rlePixel % 2 ^ bpp.bits), { s with rleRepeat := s.rleRepeat - 1 })

/-- The `rle_take_raw > 0` branch of the RLE iterator: decrement the counter,
then emit the next literal color; the call returns `none` when the literal
bytes are missing. -/
def rleEmitRaw (bpp : Bpp) (s : RleState) : Option Nat × RleState :=
  let s1 : RleState := { s with rleTakeRaw := s.rleTakeRaw - 1 }
  match nextColor bpp s1.data with
  | some (c, rest) => (some c, { s1 with data := rest })
  | none => (none, s1)

/-- `Iterator for RawColors<R, Rle>` (src/raw_iter.rs:110-146).  One `next`
call: replay a pending repeat pixel, or take a pending literal pixel, or read
a control byte (bit 7 = packet kind, low 7 bits = count − 1) and set up the
next packet, after which the loop immediately emits that packet's first pixel.
Returns `none` (iterator termination) when the control byte or the repeat
packet's pixel payload is missing. -/
def rleNext (bpp : Bpp) (s : RleState) : Option Nat × RleState :=
  if 0 < s.rleRepeat then rleEmitRepeat bpp s
  else if 0 < s.rleTakeRaw then rleEmitRaw bpp s
  else
    match s.data with
    | [] => (none, s)
    | b :: rest =>
      let pixelCount := (b &&& 0x7F) + 1
      if b &&& 0x80 ≠ 0 then
        match nextColor bpp rest with
        | none => (none, { s with data := rest })
        | some (p, rest2) =>
          rleEmitRepeat bpp
            { data := rest2, rlePixel := p, rleRepeat := pixelCount, rleTakeRaw := s.rleTakeRaw }
      else
        rleEmitRaw bpp
          { data := rest, rlePixel := s.rlePixel, rleRepeat := s.rleRepeat,
            rleTakeRaw := pixelCount }

/-- Collect up to `n` pixels from the RLE iterator, stopping at the first
`none` as an iterator consumer does. -/
def runRle (bpp : Bpp) : Nat → RleState → List Nat × RleState
  | 0, s => ([], s)
  | n + 1, s =>
    match rleNext bpp s with
    | (some c, s') =>
      let r := runRle bpp n s'
      (c :: r.1, r.2)
    | (none, s') => ([], s')

/-- Spec-side encoder: the little-endian byte encoding of a pixel value at a
given storage width, as the round-trip claims describe it. -/
def specEncodePixel (bpp : Bpp) (p : Nat) : List Nat :=
  match bpp with
  | .Bits8 => [p % 256]
  | .Bits16 => [p % 256, p / 256 % 256]
  | .Bits24 => [p % 256, p / 256 % 256, p / 65536 % 256]
  | .Bits32 => [p % 256, p / 256 % 256, p / 65536 % 256, p / 16777216 % 256]

/-- Spec-side encoder for a raw packet payload: the literal pixel encodings in
order. -/
def encodeList (bpp : Bpp) : List Nat → List Nat
  | [] => []
  | p :: tl => specEncodePixel bpp p ++ encodeList bpp tl

/-! ## Position generation (src/raw_iter.rs, `RawPixels::new` / `next_position`) -/

/-- The `position` field of `RawPixels`: a `Point` with `i32` coordinates. -/
structure PositionState where
  x : Int
  y : Int
deriving DecidableEq, Repr

/-- The start row chosen by `RawPixels::new`:
`height.saturating_sub(1)` for a bottom origin, else `0`. -/
def startY (height : Nat) (origin : ImageOrigin) : Nat :=
  if origin.isBottom then height - 1 else 0

/-- The initial position `(0, start_y)` of `RawPixels::new`. -/
def initPosition (height : Nat) (origin : ImageOrigin) : PositionState :=
  ⟨0, (startY height origin : Int)⟩

/-- `RawPixels::next_position` (src/raw_iter.rs:207-227): `none` once `y`
leaves `[0, height)`; otherwise emit the current position, advance `x`, and on
reaching `width` reset `x` and move `y` toward the far edge. -/
def nextPosition (width height : Nat) (origin : ImageOrigin) (s : PositionState) :
    Option ((Int × Int) × PositionState) :=
  if s.y < 0 ∨ (height : Int) ≤ s.y then
    none
  else
    let position := (s.x, s.y)
    let x1 := s.x + 1
    if (width : Int) ≤ x1 then
      some (position, ⟨0, if origin.isBottom then s.y - 1 else s.y + 1⟩)
    else
      some (position, ⟨x1, s.y⟩)

/-- Collect up to `fuel` positions from the position generator. -/
def positionsFrom (width height : Nat) (origin : ImageOrigin) :
    PositionState → Nat → List (Int × Int)
  | _, 0 => []
  | s, fuel + 1 =>
    match nextPosition width height origin s with
    | none => []
    | some (p, s') => p :: positionsFrom width height origin s' fuel

/-- The generator state after `k` emitted positions (for `k ≤ width*height`):
`x = k mod width`, with the row indexed from the stored origin's edge. -/
def stateAt (width height : Nat) (origin : ImageOrigin) (k : Nat) : PositionState :=
  ⟨((k % width : Nat) : Int),
    if origin.isBottom then (height : Int) - 1 - ((k / width : Nat) : Int)
    else ((k / width : Nat) : Int)⟩

/-- The `k`-th position the generator emits. -/
def posAt (width height : Nat) (origin : ImageOrigin) (k : Nat) : Int × Int :=
  ((stateAt width height origin k).x, (stateAt width height origin k).y)

/-- The whole emitted position sequence in closed form. -/
def closedPositions (width height : Nat) (origin : ImageOrigin) : List (Int × Int) :=
  (List.range (width * height)).map (posAt width height origin)

/-! ## The combined raw pixel iterator (src/raw_iter.rs, `RawPixels`) -/

/-- `DynamicRawColors` (src/raw_iter.rs:148-158): one of the eight
width × compression decoder instantiations. -/
inductive ColorIter where
  | uncompressed (bpp : Bpp) (data : List Nat)
  | rle (bpp : Bpp) (s : RleState)
deriving DecidableEq, Repr

/-- One `next` call of the dynamic color iterator. -/
def colorNext : ColorIter → Option Nat × ColorIter
  | .uncompressed bpp data =>
    let r := uncompressedNext bpp data
    (some r.1, .uncompressed bpp r.2)
  | .rle bpp s =>
    let r := rleNext bpp s
    (r.1, .rle bpp r.2)

/-- `RawPixel` (src/raw_iter.rs:257-263): a position (relative to the top-left
corner) and a raw `u32` color value. -/
structure RawPixel where
  position : Int × Int
  color : Nat
deriving DecidableEq, Repr

/-- The state of the `RawPixels` iterator (src/raw_iter.rs:166-170): the
image geometry, the current position and the color decoder. -/
structure RawPixelsState where
  width : Nat
  height : Nat
  origin : ImageOrigin
  pos : PositionState
  colors : ColorIter
deriving DecidableEq, Repr

/-- `Iterator for RawPixels` (src/raw_iter.rs:230-249): take the next
position (stopping when the generator is done), then the next color (stopping
when the RLE decoder is exhausted), and pair them. -/
def rawPixelsNext (s : RawPixelsState) : Option RawPixel × RawPixelsState :=
  match nextPosition s.width s.height s.origin s.pos with
  | none => (none, s)
  | some (p, pos') =>
    match colorNext s.colors with
    | (none, colors') => (none, { s with pos := pos', colors := colors' })
    | (some c, colors') => (some ⟨p, c⟩, { s with pos := pos', colors := colors' })

/-- Collect up to `fuel` pixels from the `RawPixels` iterator. -/
def pixelsFrom : RawPixelsState → Nat → List RawPixel
  | _, 0 => []
  | s, fuel + 1 =>
    match rawPixelsNext s with
    | (none, _) => []
    | (some pix, s') => pix :: pixelsFrom s' fuel

/-! ## Header parsing (src/header.rs `TgaHeader::parse`) and construction
(src/raw_tga.rs `RawTga::from_slice`, src/lib.rs `Tga::from_slice`) -/

/-- nom's `le_u8`: consume one byte. -/
def le_u8 : List Nat → Option (Nat × List Nat)
  | [] => none
  | b :: rest => some (b % 256, rest)

/-- nom's `le_u16`: consume two bytes, little-endian. -/
def le_u16 : List Nat → Option (Nat × List Nat)
  | b0 :: b1 :: rest => some (b0 % 256 + 256 * (b1 % 256), rest)
  | _ => none

/-- `TgaHeader` (src/header.rs:141-183). -/
structure TgaHeader where
  idLen : Nat
  hasColorMap : Bool
  dataType : DataType
  compression : Compression
  colorMapStart : Nat
  colorMapLen : Nat
  colorMapDepth : Option Bpp
  xOrigin : Nat
  yOrigin : Nat
  width : Nat
  height : Nat
  pixelDepth : Bpp
  imageOrigin : ImageOrigin
  alphaChannelDepth : Nat
deriving DecidableEq, Repr

/-- `has_color_map` (src/header.rs:225-231): byte 0 is false, 1 is true,
anything else is a parse failure. -/
def parseHasColorMap (input : List Nat) : Option (Bool × List Nat) :=
  match le_u8 input with
  | some (0, rest) => some (false, rest)
  | some (1, rest) => some (true, rest)
  | _ => none

/-- `Bpp::parse`: a depth byte that must be one of {8,16,24,32}. -/
def Bpp.parse (input : List Nat) : Option (Bpp × List Nat) :=
  match le_u8 input with
  | some (b, rest) => (Bpp.new b).map (fun v => (v, rest))
  | none => none

/-- `Bpp::parse_opt`: a depth byte whose invalid values map to `none`. -/
def Bpp.parseOpt (input : List Nat) : Option (Option Bpp × List Nat) :=
  match le_u8 input with
  | some (b, rest) => some (Bpp.new b, rest)
  | none => none

/-- `TgaHeader::parse` (src/header.rs:186-222): the fixed 18-byte header in
field order; any missing byte or invalid field aborts the parse. -/
def TgaHeader.parse (input : List Nat) : Option (TgaHeader × List Nat) := do
  let (idLen, input) ← le_u8 input
  let (hasColorMap, input) ← parseHasColorMap input
  let (imageTypeByte, input) ← le_u8 input
  let (dtc, input) ←
    match parse_image_type imageTypeByte with
    | .ok v => some (v, input)
    | .error _ => none
  let (colorMapStart, input) ← le_u16 input
  let (colorMapLen, input) ← le_u16 input
  let (colorMapDepth, input) ← Bpp.parseOpt input
  let (xOrigin, input) ← le_u16 input
  let (yOrigin, input) ← le_u16 input
  let (width, input) ← le_u16 input
  let (height, input) ← le_u16 input
  let (pixelDepth, input) ← Bpp.parse input
  let (imageDescriptor, input) ← le_u8 input
  some (⟨idLen, hasColorMap, dtc.1, dtc.2, colorMapStart, colorMapLen, colorMapDepth,
    xOrigin, yOrigin, width, height, pixelDepth,
    ImageOrigin.fromImageDescriptor imageDescriptor, imageDescriptor &&& 0xF⟩, input)

/-- `parse_image_id` (src/raw_tga.rs:194-196): `take(id_len)`, which fails on
insufficient input. -/
def parse_image_id (input : List Nat) (header : TgaHeader) :
    Option (List Nat × List Nat) :=
  if header.idLen ≤ input.length then
    some (input.take header.idLen, input.drop header.idLen)
  else none

/-- The borrowed color-map view: the raw entry bytes and the entry depth. -/
structure ColorMap where
  data : List Nat
  entryBpp : Bpp
deriving DecidableEq, Repr

/-- Modelled from the spec: `ColorMap::parse` — src/color_map.rs is not under
src/.  Per §4.3 the map is constructed only when the header's has-color-map
flag is set; the entry depth is then required (its absence is a color-map
error per §4.1), and color-map length × entry bytes must not exceed the
remaining buffer, else a Header-class error; the map bytes are consumed. -/
def ColorMap.parse (input : List Nat) (header : TgaHeader) :
    Except ParseError (Option ColorMap × List Nat) :=
  if header.hasColorMap then
    match header.colorMapDepth with
    | none => .error .ColorMap
    | some bpp =>
      let len := header.colorMapLen * bpp.bytes
      if len ≤ input.length then .ok (some ⟨input.take len, bpp⟩, input.drop len)
      else .error .Header
  else .ok (none, input)

/-- Modelled from the spec: the TGA 2.0 footer signature — src/footer.rs is
not under src/.  §4.2/§6: an 18-byte fixed ASCII trailer
(`TRUEVISION-XFILE.` plus a NUL byte) ending the 26-byte footer. -/
def footerSignature : List Nat :=
  [84, 82, 85, 69, 86, 73, 83, 73, 79, 78, 45, 88, 70, 73, 76, 69, 46, 0]

/-- Modelled from the spec: the byte count `TgaFooter::parse`/`length`
contribute to trimming the pixel-data tail — src/footer.rs is not under
src/.  §4.2: the footer is the last 26 bytes when the signature matches;
absence (short buffer or signature mismatch) contributes 0.  `from_slice`
only subtracts this value, so its exact size never affects construction
success. -/
def footerLength (data : List Nat) : Nat :=
  if 26 ≤ data.length ∧ data.drop (data.length - 18) = footerSignature then 26 else 0

/-- `RawTga` (src/raw_tga.rs:23-47): the parsed image view. -/
structure RawTga where
  colorMap : Option ColorMap
  pixelData : List Nat
  width : Nat
  height : Nat
  dataType : DataType
  compression : Compression
  bpp : Bpp
  imageOrigin : ImageOrigin
deriving DecidableEq, Repr

/-- `RawTga::from_slice` (src/raw_tga.rs:51-74): header, image ID and color
map in sequence (all failures mapped into `ParseError`), then the pixel data
is the remaining input minus the footer length (saturating subtraction, so a
short tail can never fail). -/
def RawTga.from_slice (data : List Nat) : Except ParseError RawTga :=
  match TgaHeader.parse data with
  | none => .error .Header
  | some (header, input) =>
    match parse_image_id input header with
    | none => .error .Header
    | some (_imageId, input) =>
      match ColorMap.parse input header with
      | .error e => .error e
      | .ok (colorMap, input) =>
        let fl := footerLength data
        let pixelData := input.take (input.length - fl)
        .ok ⟨colorMap, pixelData, header.width, header.height, header.dataType,
          header.compression, header.pixelDepth, header.imageOrigin⟩

/-- The construction steps of `from_slice` that can fail: header, image ID and
color map.  Everything after them (footer probing, pixel-data slicing) is
total. -/
def rawTgaPreamble (data : List Nat) :
    Except ParseError (TgaHeader × Option ColorMap × List Nat) :=
  match TgaHeader.parse data with
  | none => .error .Header
  | some (header, input) =>
    match parse_image_id input header with
    | none => .error .Header
    | some (_imageId, input) =>
      match ColorMap.parse input header with
      | .error e => .error e
      | .ok (colorMap, input) => .ok (header, colorMap, input)

/-- `RawTga::color_bpp` (src/raw_tga.rs:95-101): the color-map entry depth
when a color map is present, else the pixel depth. -/
def RawTga.color_bpp (t : RawTga) : Bpp :=
  match t.colorMap with
  | some colorMap => colorMap.entryBpp
  | none => t.bpp

/-- Modelled from the spec: `ImageType::is_monochrome` — the `ImageType` enum
of the published header module is not under src/ (src/header.rs carries the
split `DataType`/`Compression` pair instead).  Per the spec the monochrome
image types are exactly the black-and-white data kinds. -/
def RawTga.is_monochrome (t : RawTga) : Bool :=
  match t.dataType with
  | .BlackAndWhite => true
  | _ => false

/-- `RawPixels::new` (src/raw_iter.rs:172-204): pick the decoder matching the
image-data bit depth and compression and start at `(0, start_y)`. -/
def RawPixels.new (t : RawTga) : RawPixelsState :=
  ⟨t.width, t.height, t.imageOrigin, initPosition t.height t.imageOrigin,
    match t.compression with
    | .Uncompressed => .uncompressed t.bpp t.pixelData
    | .Rle => .rle t.bpp ⟨t.pixelData, 0, 0, 0⟩⟩

/-- `ColorType` (src/lib.rs:419-424). -/
inductive ColorType where
  | Gray8
  | Rgb555
  | Rgb888
deriving DecidableEq, Repr

/-- `Tga::from_slice` (src/lib.rs:199-220): raw parsing followed by the
classification of (color bit depth, monochrome flag) into the supported
color types, any other combination being an unsupported-format error naming
the image type and depth. -/
def Tga.from_slice (data : List Nat) : Except ParseError (RawTga × ColorType) :=
  match RawTga.from_slice data with
  | .error e => .error e
  | .ok raw =>
    match raw.color_bpp, raw.is_monochrome with
    | .Bits8, true => .ok (raw, .Gray8)
    | .Bits16, false => .ok (raw, .Rgb555)
    | .Bits24, false => .ok (raw, .Rgb888)
    | _, _ => .error (.UnsupportedTgaType raw.dataType raw.compression raw.color_bpp)

/-! ## Panic instrumentation: every operation the source performs after a
bounds guard (`try_into().unwrap()`, `&slice[n..]`, `copy_from_slice`,
`u8` subtraction) is modelled as a checked operation whose failure outcome
is `Except.error`, mirroring a Rust panic. -/

/-- `bytes.try_into().unwrap()`: panics unless the slice has exactly `n`
elements. -/
def checkedTryInto (n : Nat) (l : List Nat) : Except Unit (List Nat) :=
  if l.length = n then .ok l else .error ()

/-- `&slice[i..]`: panics unless `i` is within bounds. -/
def checkedDrop (l : List Nat) (i : Nat) : Except Unit (List Nat) :=
  if i ≤ l.length then .ok (l.drop i) else .error ()

/-- `bytes2[0..3].copy_from_slice(bytes)` into `[0u8; 4]`: panics unless the
source holds exactly 3 bytes; the high byte stays zero. -/
def checkedCopyInto4 (src : List Nat) : Except Unit (List Nat) :=
  if src.length = 3 then .ok (src ++ [0]) else .error ()

/-- `u8` subtraction `a - b`: panics (in debug builds) on underflow. -/
def checkedSub (a b : Nat) : Except Unit Nat :=
  if b ≤ a then .ok (a - b) else .error ()

/-- The `NextColor` impls with their post-guard slice operations checked. -/
def nextColorChecked (bpp : Bpp) (data : List Nat) :
    Except Unit (Option (Nat × List Nat)) :=
  match bpp with
  | .Bits8 =>
    match data with
    | [] => .ok none
    | b :: rest => .ok (some (b % 256, rest))
  | .Bits16 =>
    if 2 ≤ data.length then
      match checkedTryInto 2 (data.take 2) with
      | .error e => .error e
      | .ok bytes =>
        match checkedDrop data 2 with
        | .error e => .error e
        | .ok rest => .ok (some (leNum bytes, rest))
    else .ok none
  | .Bits24 =>
    if 3 ≤ data.length then
      match checkedCopyInto4 (data.take 3) with
      | .error e => .error e
      | .ok bytes4 =>
        match checkedDrop data 3 with
        | .error e => .error e
        | .ok rest => .ok (some (leNum bytes4, rest))
    else .ok none
  | .Bits32 =>
    if 4 ≤ data.length then
      match checkedTryInto 4 (data.take 4) with
      | .error e => .error e
      | .ok bytes =>
        match checkedDrop data 4 with
        | .error e => .error e
        | .ok rest => .ok (some (leNum bytes, rest))
    else .ok none

/-- The uncompressed iterator with checked accesses. -/
def uncompressedNextChecked (bpp : Bpp) (data : List Nat) :
    Except Unit (Nat × List Nat) :=
  match nextColorChecked bpp data with
  | .error e => .error e
  | .ok (some (c, rest)) => .ok (c, rest)
  | .ok none => .ok (0, data)

/-- The RLE iterator with checked accesses and checked counter decrements. -/
def rleNextChecked (bpp : Bpp) (s : RleState) : Except Unit (Option Nat × RleState) :=
  if 0 < s.rleRepeat then
    match checkedSub s.rleRepeat 1 with
    | .error e => .error e
    | .ok newRepeat => .ok (some (s.rlePixel % 2 ^ bpp.bits), { s with rleRepeat := newRepeat })
  else if 0 < s.rleTakeRaw then
    match checkedSub s.rleTakeRaw 1 with
    | .error e => .error e
    | .ok newTakeRaw =>
      match nextColorChecked bpp s.data with
      | .error e => .error e
      | .ok (some (c, rest)) => .ok (some c, { s with data := rest, rleTakeRaw := newTakeRaw })
      | .ok none => .ok (none, { s with rleTakeRaw := newTakeRaw })
  else
    match s.data with
    | [] => .ok (none, s)
    | b :: rest =>
      let pixelCount := (b &&& 0x7F) + 1
      if b &&& 0x80 ≠ 0 then
        match nextColorChecked bpp rest with
        | .error e => .error e
        | .ok none => .ok (none, { s with data := rest })
        | .ok (some (p, rest2)) =>
          match checkedSub pixelCount 1 with
          | .error e => .error e
          | .ok newRepeat =>
            .ok (some (p % 2 ^ bpp.bits),
              { data := rest2, rlePixel := p, rleRepeat := newRepeat,
                rleTakeRaw := s.rleTakeRaw })
      else
        match checkedSub pixelCount 1 with
        | .error e => .error e
        | .ok newTakeRaw =>
          match nextColorChecked bpp rest with
          | .error e => .error e
          | .ok (some (c, rest2)) =>
            .ok (some c,
              { data := rest2, rlePixel := s.rlePixel, rleRepeat := s.rleRepeat,
                rleTakeRaw := newTakeRaw })
          | .ok none =>
            .ok (none,
              { data := rest, rlePixel := s.rlePixel, rleRepeat := s.rleRepeat,
                rleTakeRaw := newTakeRaw })

/-- The dynamic color iterator with checked accesses. -/
def colorNextChecked : ColorIter → Except Unit (Option Nat × ColorIter)
  | .uncompressed bpp data =>
    match uncompressedNextChecked bpp data with
    | .error e => .error e
    | .ok r => .ok (some r.1, .uncompressed bpp r.2)
  | .rle bpp s =>
    match rleNextChecked bpp s with
    | .error e => .error e
    | .ok r => .ok (r.1, .rle bpp r.2)

/-- The `RawPixels` iterator with checked accesses. -/
def rawPixelsNextChecked (s : RawPixelsState) :
    Except Unit (Option RawPixel × RawPixelsState) :=
  match nextPosition s.width s.height s.origin s.pos with
  | none => .ok (none, s)
  | some (p, pos') =>
    match colorNextChecked s.colors with
    | .error e => .error e
    | .ok (none, colors') => .ok (none, { s with pos := pos', colors := colors' })
    | .ok (some c, colors') => .ok (some ⟨p, c⟩, { s with pos := pos', colors := colors' })

/-- Whole-stream iteration with checked accesses. -/
def pixelsFromChecked : RawPixelsState → Nat → Except Unit (List RawPixel)
  | _, 0 => .ok []
  | s, fuel + 1 =>
    match rawPixelsNextChecked s with
    | .error e => .error e
    | .ok (none, _) => .ok []
    | .ok (some pix, s') =>
      match pixelsFromChecked s' fuel with
      | .error e => .error e
      | .ok tl => .ok (pix :: tl)

/-! ## Typed image facade drawing (src/lib.rs `Tga::draw_colors`) -/

/-- One operation issued to the draw target: a contiguous rectangular fill
(`fill_contiguous`) or a single pixel.  Colors are raw values. -/
inductive DrawOp where
  | fillContiguous (x y : Int) (width height : Nat) (colors : List Nat)
  | pixel (x y : Int) (color : Nat)
deriving DecidableEq, Repr

/-- The outcome of `Tga::draw_colors`: a list of emitted draw operations, or
the `todo!()` panic. -/
inductive DrawResult where
  | ops (l : List DrawOp)
  | todo
deriving DecidableEq, Repr

/-- `Tga::draw_colors` (src/lib.rs:236-271): nothing for a zero-sized
bounding box; one whole-image contiguous fill for a top-left origin; one
per-row fill walking the rows bottom-up for a bottom-left origin (row `i` of
the color stream lands at `y = height-1-i`); and `todo!()` for the top-right
and bottom-right origins. -/
def draw_colors (width height : Nat) (origin : ImageOrigin) (colors : List Nat) :
    DrawResult :=
  if width = 0 ∨ height = 0 then .ops []
  else
    match origin with
    | .TopLeft => .ops [.fillContiguous 0 0 width height colors]
    | .BottomLeft =>
      .ops ((List.range height).map fun (i : Nat) =>
        .fillContiguous 0 ((height : Int) - 1 - (i : Int)) width 1
          ((colors.drop (i * width)).take width))
    | .TopRight => .todo
    | .BottomRight => .todo

/-- The per-pixel mirrored emission the spec claims for the right origins:
each raw pixel `((x, y), c)` is emitted individually at `(max_x - x, y)` for
top-right and `(max_x - x, max_y - y)` for bottom-right. -/
def specMirroredDraw (width height : Nat) (origin : ImageOrigin)
    (pixels : List ((Int × Int) × Nat)) : DrawResult :=
  .ops (pixels.map fun pc =>
    if origin = .TopRight then
      .pixel ((width : Int) - 1 - pc.1.1) pc.1.2 pc.2
    else
      .pixel ((width : Int) - 1 - pc.1.1) ((height : Int) - 1 - pc.1.2) pc.2)

theorem and_127_eq_mod (b : Nat) : b &&& 127 = b % 128 := by
  have h := Nat.and_pow_two_sub_one_eq_mod b 7
  norm_num at h
  exact h

theorem and_128_high (r : Nat) (h : r < 128) : (128 + r) &&& 128 ≠ 0 := by
  have h2 := Nat.and_two_pow (128 + r) 7
  have h3 : (128 + r).testBit 7 = true := by
    rw [Nat.testBit_to_div_mod]
    have : (128 + r) / 2 ^ 7 = 1 := by omega
    simp [this]
    omega
  rw [h3] at h2
  norm_num at h2 ⊢
  omega

theorem and_128_low (r : Nat) (h : r < 128) : r &&& 128 = 0 := by
  have h2 := Nat.and_two_pow r 7
  have h3 : r.testBit 7 = false := by
    rw [Nat.testBit_to_div_mod]
    have : r / 2 ^ 7 = 0 := by omega
    simp [this]
    omega
  rw [h3] at h2
  norm_num at h2
  exact h2

theorem nextColor_encode (bpp : Bpp) (p : Nat) (rest : List Nat)
    (hp : p < 2 ^ bpp.bits) :
    nextColor bpp (specEncodePixel bpp p ++ rest) = some (p, rest) := by
  cases bpp
  all_goals
    simp only [Bpp.bits] at hp
    norm_num at hp
    simp [nextColor, specEncodePixel, leNum]
    omega

theorem nextColor_none_iff (bpp : Bpp) (d : List Nat) :
    nextColor bpp d = none ↔ d.length < bpp.bytes := by
  cases bpp <;> simp only [nextColor, Bpp.bytes]
  · cases d <;> simp
  all_goals
    split <;> simp_all

/-- Replaying a pending repeat counter: `k ≤ r` calls emit `k` copies of the
cached pixel and leave the data untouched. -/
theorem runRle_repeat (bpp : Bpp) :
    ∀ (k d pix r t : _), k ≤ r →
      runRle bpp k ⟨d, pix, r, t⟩ =
        (List.replicate k (pix % 2 ^ bpp.bits), ⟨d, pix, r - k, t⟩) := by
  intro k
  induction k with
  | zero => intro d pix r t _; simp [runRle]
  | succ k ih =>
    intro d pix r t hk
    have hr : 0 < r := by omega
    simp only [runRle, rleNext, hr, if_pos, rleEmitRepeat]
    rw [ih d pix (r - 1) t (by omega)]
    simp [List.replicate_succ]
    omega

/-- Unfolding `runRle` one step when the iterator emits a pixel. -/
theorem runRle_succ_of_some (bpp : Bpp) (n : Nat) (s : RleState) (c : Nat) (s' : RleState)
    (h : rleNext bpp s = (some c, s')) :
    runRle bpp (n + 1) s = (c :: (runRle bpp n s').1, (runRle bpp n s').2) := by
  simp only [runRle, h]

/-- Reading a repeat packet: with clear counters, a control byte with bit 7
set and a decodable pixel, one call emits the (truncated) pixel and leaves
`count - 1` pending repeats. -/
theorem rleNext_repeat_packet (bpp : Bpp) (b pix : Nat) (rest : List Nat) (p : Nat)
    (rest2 : List Nat) (hbit : b &&& 128 ≠ 0) (hnc : nextColor bpp rest = some (p, rest2)) :
    rleNext bpp ⟨b :: rest, pix, 0, 0⟩ =
      (some (p % 2 ^ bpp.bits), ⟨rest2, p, b &&& 127, 0⟩) := by
  simp only [rleNext, if_neg (Nat.lt_irrefl 0), hnc, if_pos hbit, rleEmitRepeat,
    Nat.add_sub_cancel]

/-- Reading a raw packet header: with clear counters and a control byte with
bit 7 clear, the call proceeds to take the first literal pixel with
`count` pending raw copies. -/
theorem rleNext_raw_packet (bpp : Bpp) (b pix : Nat) (rest : List Nat)
    (hbit : ¬b &&& 128 ≠ 0) :
    rleNext bpp ⟨b :: rest, pix, 0, 0⟩ =
      rleEmitRaw bpp ⟨rest, pix, 0, (b &&& 127) + 1⟩ := by
  simp only [rleNext, if_neg (Nat.lt_irrefl 0), if_neg hbit]

/-- Consuming pending literal pixels: with `ps.length ≤ t` outstanding raw
copies and the encodings of `ps` at the head of the stream, `ps.length` calls
emit exactly `ps` and consume exactly its bytes. -/
theorem runRle_takeRaw (bpp : Bpp) :
    ∀ (ps : List Nat) (pix t : Nat) (rest : List Nat), ps.length ≤ t →
      (∀ p ∈ ps, p < 2 ^ bpp.bits) →
      runRle bpp ps.length ⟨encodeList bpp ps ++ rest, pix, 0, t⟩ =
        (ps, ⟨rest, pix, 0, t - ps.length⟩) := by
  intro ps
  induction ps with
  | nil => intro pix t rest _ _; simp [runRle, encodeList]
  | cons p tl ih =>
    intro pix t rest ht hp
    have h1 : 0 < t := by simp at ht; omega
    simp only [List.length_cons, runRle, rleNext, rleEmitRaw, encodeList, List.append_assoc]
    have henc := nextColor_encode bpp p (encodeList bpp tl ++ rest) (hp p (by simp))
    simp only [henc, if_neg (Nat.lt_irrefl 0), if_pos h1]
    rw [ih pix (t - 1) rest (by simp at ht; omega) (fun q hq => hp q (by simp [hq]))]
    simp
    omega

set_option maxRecDepth 8192 in
/-- C1: for every byte value `b`, `parse_image_type` succeeds iff `b` uses only
bits {0,1,3} (`b &&& 0xF4 = 0`, where `0xF4 = !0b1011` on bytes) and `b ≠ 8`;
on success the data kind is selected by bits 0–1 (0 = NoData, 1 = ColorMapped,
2 = TrueColor, 3 = BlackAndWhite) and the compression is RLE iff bit 3 is set;
on every other byte it fails with the unsupported-image-type error carrying
that byte. -/
theorem parse_image_type_spec :
    ∀ b : Fin 256,
      ((parse_image_type b.val).isOk ↔ (b.val &&& 0xF4 = 0 ∧ b.val ≠ 8)) ∧
      ((b.val &&& 0xF4 = 0 ∧ b.val ≠ 8) →
        parse_image_type b.val =
          .ok (claimDataKind (b.val % 4), claimCompression (b.val.testBit 3))) ∧
      (¬(b.val &&& 0xF4 = 0 ∧ b.val ≠ 8) →
        parse_image_type b.val = .error (.UnsupportedImageType b.val)) := by
  decide

/-- C2: for every storage width, every `1 ≤ n ≤ 128` and every pixel value `p`
of that width, decoding a repeat packet (control byte `0x80 | (n-1)`, then one
encoding of `p`) yields exactly `n` copies of `p`, leaving the decoder at the
start of the next packet with both counters clear and exactly the packet's
bytes consumed. -/
theorem rle_repeat_packet_roundtrip (bpp : Bpp) (n p pix0 : Nat) (rest : List Nat)
    (h1 : 1 ≤ n) (h2 : n ≤ 128) (hp : p < 2 ^ bpp.bits) :
    runRle bpp n ⟨(128 + (n - 1)) :: (specEncodePixel bpp p ++ rest), pix0, 0, 0⟩ =
      (List.replicate n p, ⟨rest, p, 0, 0⟩) := by
  obtain ⟨m, rfl⟩ : ∃ m, n = m + 1 := ⟨n - 1, by omega⟩
  have hm : m < 128 := by omega
  have hb127 : (128 + m) &&& 127 = m := by rw [and_127_eq_mod]; omega
  have hb128 := and_128_high m hm
  have hmod : p % 2 ^ bpp.bits = p := Nat.mod_eq_of_lt hp
  have henc := nextColor_encode bpp p rest hp
  have hstep := rleNext_repeat_packet bpp (128 + m) pix0 (specEncodePixel bpp p ++ rest) p rest
    hb128 henc
  rw [hb127] at hstep
  simp only [Nat.add_sub_cancel]
  rw [runRle_succ_of_some bpp m _ _ _ hstep, runRle_repeat bpp m rest p m 0 (Nat.le_refl m)]
  simp [hmod, List.replicate_succ]

/-- Witness for C2 at a concrete input: a 16-bit repeat packet with count 3
and pixel `0xABCD` decodes to three copies of `0xABCD` and continues at the
next byte. -/
theorem rle_repeat_packet_roundtrip_witness :
    1 ≤ 3 ∧ 43981 < 2 ^ Bpp.Bits16.bits ∧
      runRle .Bits16 3 ⟨(128 + (3 - 1)) :: (specEncodePixel .Bits16 43981 ++ [7]), 9, 0, 0⟩ =
        (List.replicate 3 43981, ⟨[7], 43981, 0, 0⟩) :=
  ⟨by decide, by decide,
    rle_repeat_packet_roundtrip .Bits16 3 43981 9 [7] (by decide) (by decide) (by decide)⟩

/-- C3: for every storage width and every sequence `ps` of `1 ≤ n ≤ 128` pixel
values of that width, decoding a raw packet (control byte `n-1` with bit 7
clear, then the `n` literal encodings) yields exactly `ps` in order, leaving
the decoder at the start of the next packet with both counters clear. -/
theorem rle_raw_packet_roundtrip (bpp : Bpp) (ps : List Nat) (pix0 : Nat) (rest : List Nat)
    (h1 : 1 ≤ ps.length) (h2 : ps.length ≤ 128) (hp : ∀ p ∈ ps, p < 2 ^ bpp.bits) :
    runRle bpp ps.length ⟨(ps.length - 1) :: (encodeList bpp ps ++ rest), pix0, 0, 0⟩ =
      (ps, ⟨rest, pix0, 0, 0⟩) := by
  obtain ⟨p, tl, rfl⟩ : ∃ p tl, ps = p :: tl := by
    cases ps with
    | nil => simp at h1
    | cons a b => exact ⟨a, b, rfl⟩
  have hb : tl.length < 128 := by simp at h2; omega
  have hb127 : tl.length &&& 127 = tl.length := by rw [and_127_eq_mod]; omega
  have hcond : ¬tl.length &&& 128 ≠ 0 := by simp [and_128_low _ hb]
  have henc := nextColor_encode bpp p (encodeList bpp tl ++ rest) (hp p (by simp))
  have hstep : rleNext bpp ⟨tl.length :: (encodeList bpp (p :: tl) ++ rest), pix0, 0, 0⟩ =
      (some p, ⟨encodeList bpp tl ++ rest, pix0, 0, tl.length⟩) := by
    rw [rleNext_raw_packet bpp tl.length pix0 _ hcond]
    simp only [rleEmitRaw, encodeList, List.append_assoc, henc, hb127, Nat.add_sub_cancel]
  simp only [List.length_cons, Nat.add_sub_cancel]
  rw [runRle_succ_of_some bpp tl.length _ _ _ hstep,
    runRle_takeRaw bpp tl pix0 tl.length rest (Nat.le_refl _)
      (fun q hq => hp q (by simp [hq]))]
  simp

/-- Witness for C3 at a concrete input: an 8-bit raw packet with the three
literal pixels `[10, 20, 30]` decodes to exactly those values in order. -/
theorem rle_raw_packet_roundtrip_witness :
    1 ≤ ([10, 20, 30] : List Nat).length ∧
      runRle .Bits8 ([10, 20, 30] : List Nat).length
          ⟨(([10, 20, 30] : List Nat).length - 1) :: (encodeList .Bits8 [10, 20, 30] ++ [200, 1]), 4, 0, 0⟩ =
        ([10, 20, 30], ⟨[200, 1], 4, 0, 0⟩) :=
  ⟨by decide,
    rle_raw_packet_roundtrip .Bits8 [10, 20, 30] 4 [200, 1] (by decide) (by decide) (by decide)⟩

/-- C4 counterexample: with a repeat packet whose pixel payload is missing
(stream `[0x81]`, one control byte and no pixel bytes), the RLE iterator
returns `none` (it terminates) rather than producing a zero-valued pixel, so
mid-packet exhaustion is not treated like uncompressed underrun. -/
theorem rle_mid_packet_zero_fill_counterexample :
    (rleNext .Bits8 ⟨[129], 0, 0, 0⟩).1 ≠ some 0 ∧
      (rleNext .Bits8 ⟨[129], 0, 0, 0⟩).1 = none := by
  decide

/-- C4 amended: exhaustion at a packet boundary (both counters clear, no data)
terminates the RLE iterator, and exhaustion mid-packet — pending raw-copy
count with fewer than a pixel's bytes left, or a repeat control byte whose
pixel payload is incomplete — also terminates it (`none`), not zero-fill. -/
theorem rle_end_of_input_terminates (bpp : Bpp) (s : RleState) :
    (s.rleRepeat = 0 → s.rleTakeRaw = 0 → s.data = [] → rleNext bpp s = (none, s)) ∧
    (s.rleRepeat = 0 → 0 < s.rleTakeRaw → s.data.length < bpp.bytes →
      (rleNext bpp s).1 = none) ∧
    (∀ b rest, s.rleRepeat = 0 → s.rleTakeRaw = 0 → s.data = b :: rest → b &&& 128 ≠ 0 →
      rest.length < bpp.bytes → (rleNext bpp s).1 = none) := by
  obtain ⟨d, pix, r, t⟩ := s
  refine ⟨?_, ?_, ?_⟩
  · intro h1 h2 h3
    subst h1; subst h2; subst h3
    simp [rleNext]
  · intro h1 h2 h3
    subst h1
    simp only at h3
    simp [rleNext, rleEmitRaw, if_pos h2, (nextColor_none_iff bpp d).mpr h3]
  · intro b rest h1 h2 h3 hbit hlen
    subst h1; subst h2; subst h3
    simp [rleNext, rleEmitRaw, hbit, (nextColor_none_iff bpp rest).mpr hlen]

/-- Witness for the amended C4 at concrete inputs: termination at a packet
boundary, inside a raw packet with a truncated literal, and after a repeat
control byte with a truncated pixel. -/
theorem rle_end_of_input_terminates_witness :
    rleNext .Bits16 ⟨[], 5, 0, 0⟩ = (none, ⟨[], 5, 0, 0⟩) ∧
      (rleNext .Bits16 ⟨[77], 9, 0, 2⟩).1 = none ∧
      (rleNext .Bits16 ⟨[130, 1], 9, 0, 0⟩).1 = none :=
  ⟨(rle_end_of_input_terminates .Bits16 ⟨[], 5, 0, 0⟩).1 rfl rfl rfl,
    (rle_end_of_input_terminates .Bits16 ⟨[77], 9, 0, 2⟩).2.1 rfl (by decide) (by decide),
    (rle_end_of_input_terminates .Bits16 ⟨[130, 1], 9, 0, 0⟩).2.2 130 [1] rfl rfl rfl
      (by decide) (by decide)⟩

theorem mod_succ_lt (w k : Nat) (h : k % w + 1 < w) : (k + 1) % w = k % w + 1 := by
  have h1 : w * (k / w) + k % w = k := Nat.div_add_mod k w
  have h2 : k + 1 = w * (k / w) + (k % w + 1) := by omega
  rw [h2, Nat.mul_add_mod, Nat.mod_eq_of_lt h]

theorem div_succ_lt (w k : Nat) (hw : 0 < w) (h : k % w + 1 < w) : (k + 1) / w = k / w := by
  have h1 : w * (k / w) + k % w = k := Nat.div_add_mod k w
  have h2 : k + 1 = w * (k / w) + (k % w + 1) := by omega
  rw [h2, Nat.mul_add_div hw, Nat.div_eq_of_lt h, Nat.add_zero]

theorem mod_succ_eq (w k : Nat) (h : k % w + 1 = w) : (k + 1) % w = 0 := by
  have h1 : w * (k / w) + k % w = k := Nat.div_add_mod k w
  have h2 : k + 1 = w * (k / w + 1) := by
    rw [Nat.mul_add, Nat.mul_one]
    omega
  rw [h2, Nat.mul_mod_right]

theorem div_succ_eq (w k : Nat) (hw : 0 < w) (h : k % w + 1 = w) : (k + 1) / w = k / w + 1 := by
  have h1 : w * (k / w) + k % w = k := Nat.div_add_mod k w
  have h2 : k + 1 = w * (k / w + 1) := by
    rw [Nat.mul_add, Nat.mul_one]
    omega
  rw [h2, Nat.mul_div_cancel_left _ hw]

/-- One generator step in closed form: before the last position is reached the
generator emits `posAt k` and moves to `stateAt (k+1)`. -/
theorem nextPosition_stateAt (w h : Nat) (origin : ImageOrigin) (k : Nat)
    (hw : 0 < w) (hk : k < w * h) :
    nextPosition w h origin (stateAt w h origin k) =
      some (posAt w h origin k, stateAt w h origin (k + 1)) := by
  have hr : k % w < w := Nat.mod_lt _ hw
  have hq : k / w < h := by
    rw [Nat.div_lt_iff_lt_mul hw, Nat.mul_comm]
    exact hk
  by_cases hx : k % w + 1 = w
  · have hm1 : (k + 1) % w = 0 := mod_succ_eq w k hx
    have hd1 : (k + 1) / w = k / w + 1 := div_succ_eq w k hw hx
    cases hb : origin.isBottom
    all_goals
      simp only [nextPosition, stateAt, posAt, hb, Bool.false_eq_true, eq_self_iff_true,
        if_false, if_true, hm1, hd1]
      generalize hR : k % w = r at hr hx ⊢
      generalize hQ : k / w = q at hq ⊢
      rw [if_neg (by omega), if_pos (by omega)]
      simp only [Option.some.injEq, Prod.mk.injEq, PositionState.mk.injEq]
      push_cast
      simp
      try omega
  · have hm1 : (k + 1) % w = k % w + 1 := mod_succ_lt w k (by omega)
    have hd1 : (k + 1) / w = k / w := div_succ_lt w k hw (by omega)
    cases hb : origin.isBottom
    all_goals
      simp only [nextPosition, stateAt, posAt, hb, Bool.false_eq_true, eq_self_iff_true,
        if_false, if_true, hm1, hd1]
      generalize hR : k % w = r at hr hx ⊢
      generalize hQ : k / w = q at hq ⊢
      rw [if_neg (by omega), if_neg (by omega)]
      simp only [Option.some.injEq, Prod.mk.injEq, PositionState.mk.injEq]
      push_cast
      simp
      try omega

/-- At `k = width*height` the generator's row has left `[0, height)` and it
emits nothing. -/
theorem nextPosition_stateAt_end (w h : Nat) (origin : ImageOrigin) (hw : 0 < w) :
    nextPosition w h origin (stateAt w h origin (w * h)) = none := by
  have hdiv : w * h / w = h := Nat.mul_div_cancel_left h hw
  cases hb : origin.isBottom
  all_goals
    simp only [nextPosition, stateAt, hb, if_false, if_true, hdiv]
    rw [if_pos (by push_cast; omega)]

/-- The position stream from `stateAt k` is the closed-form sequence from
index `k`, truncated by the fuel. -/
theorem positionsFrom_stateAt (w h : Nat) (origin : ImageOrigin) (hw : 0 < w) :
    ∀ (fuel k : Nat), k ≤ w * h →
      positionsFrom w h origin (stateAt w h origin k) fuel =
        ((closedPositions w h origin).drop k).take fuel := by
  intro fuel
  induction fuel with
  | zero => intro k _; simp [positionsFrom]
  | succ fuel ih =>
    intro k hk
    by_cases hend : k = w * h
    · subst hend
      simp [positionsFrom, nextPosition_stateAt_end w h origin hw, closedPositions]
    · have hklt : k < w * h := by omega
      simp only [positionsFrom, nextPosition_stateAt w h origin k hw hklt]
      rw [ih (k + 1) (by omega)]
      have hlen : k < (closedPositions w h origin).length := by
        simp [closedPositions]
        omega
      rw [List.drop_eq_getElem_cons hlen, List.take_succ_cons]
      congr 1
      simp [closedPositions]

/-- For a non-degenerate image the initial state is `stateAt 0`. -/
theorem initPosition_eq_stateAt (w h : Nat) (origin : ImageOrigin) (hh : 0 < h) :
    initPosition h origin = stateAt w h origin 0 := by
  cases hb : origin.isBottom
  all_goals
    simp only [initPosition, startY, stateAt, hb, Bool.false_eq_true, eq_self_iff_true,
      if_false, if_true, Nat.zero_mod, Nat.zero_div]
    simp
    try omega

/-- With `height = 0` the generator emits nothing from any state. -/
theorem positionsFrom_height_zero (w : Nat) (origin : ImageOrigin) (s : PositionState)
    (fuel : Nat) : positionsFrom w 0 origin s fuel = [] := by
  cases fuel with
  | zero => rfl
  | succ fuel =>
    have hn : nextPosition w 0 origin s = none := by
      unfold nextPosition
      rw [if_pos (show s.y < 0 ∨ ((0 : Nat) : Int) ≤ s.y by omega)]
    simp [positionsFrom, hn]

/-- C6: for every image with `width ≥ 1` and `height ≥ 1` and every
`k < width*height`, the `k`-th position emitted by the raw pixel iterator's
position generator is `(k mod width, k div width)` for a top origin and
`(k mod width, height-1 - k div width)` for a bottom origin; and the
generator stops emitting once `y` leaves `[0, height)`. -/
theorem raw_pixels_kth_position (w h : Nat) (origin : ImageOrigin) (k : Nat)
    (hw : 1 ≤ w) (hh : 1 ≤ h) (hk : k < w * h) :
    (positionsFrom w h origin (initPosition h origin) (w * h))[k]? =
      some (((k % w : Nat) : Int),
        if origin.isBottom then ((h : Nat) : Int) - 1 - ((k / w : Nat) : Int)
        else ((k / w : Nat) : Int)) ∧
    (∀ s : PositionState, s.y < 0 ∨ ((h : Nat) : Int) ≤ s.y →
      nextPosition w h origin s = none) := by
  constructor
  · rw [initPosition_eq_stateAt w h origin (by omega),
      positionsFrom_stateAt w h origin (by omega) (w * h) 0 (Nat.zero_le _)]
    simp only [List.drop_zero]
    rw [List.take_of_length_le (by simp [closedPositions])]
    simp [closedPositions, List.getElem?_map, List.getElem?_range, hk, posAt, stateAt]
  · intro s hs
    unfold nextPosition
    rw [if_pos hs]

/-- Witness for C6 at a concrete input: in a 3×2 bottom-left image the 4th
emitted position is `(1, 0)`. -/
theorem raw_pixels_kth_position_witness :
    1 ≤ 3 ∧ 4 < 3 * 2 ∧
      (positionsFrom 3 2 .BottomLeft (initPosition 2 .BottomLeft) (3 * 2))[4]? =
        some (((4 % 3 : Nat) : Int),
          if ImageOrigin.BottomLeft.isBottom then ((2 : Nat) : Int) - 1 - ((4 / 3 : Nat) : Int)
          else ((4 / 3 : Nat) : Int)) :=
  ⟨by decide, by decide,
    (raw_pixels_kth_position 3 2 .BottomLeft 4 (by decide) (by decide) (by decide)).1⟩

/-- The emitted pixels' positions are a prefix of the position generator's
output (the color decoder can only cut the stream short). -/
theorem pixelsFrom_positions_prefix (w h : Nat) (origin : ImageOrigin) :
    ∀ (fuel : Nat) (ps : PositionState) (cs : ColorIter),
      ((pixelsFrom ⟨w, h, origin, ps, cs⟩ fuel).map RawPixel.position) <+:
        positionsFrom w h origin ps fuel := by
  intro fuel
  induction fuel with
  | zero => intro ps cs; simp [pixelsFrom, positionsFrom]
  | succ fuel ih =>
    intro ps cs
    simp only [pixelsFrom, positionsFrom, rawPixelsNext]
    cases hnp : nextPosition w h origin ps with
    | none => simp [List.nil_prefix]
    | some pr =>
      obtain ⟨p, pos'⟩ := pr
      cases hcn : colorNext cs with
      | mk copt cs' =>
        cases copt with
        | none => simp [List.nil_prefix]
        | some c =>
          simp only [List.map_cons]
          obtain ⟨t, ht⟩ := ih pos' cs'
          exact ⟨t, by simp [ht]⟩

/-- With an uncompressed color decoder the pixel stream is exactly as long as
the position stream: the decoder never stops it early. -/
theorem pixelsFrom_uncompressed_map_position (w h : Nat) (origin : ImageOrigin) :
    ∀ (fuel : Nat) (ps : PositionState) (bpp : Bpp) (data : List Nat),
      (pixelsFrom ⟨w, h, origin, ps, .uncompressed bpp data⟩ fuel).map RawPixel.position =
        positionsFrom w h origin ps fuel := by
  intro fuel
  induction fuel with
  | zero => intro ps bpp data; simp [pixelsFrom, positionsFrom]
  | succ fuel ih =>
    intro ps bpp data
    simp only [pixelsFrom, positionsFrom, rawPixelsNext]
    cases hnp : nextPosition w h origin ps with
    | none => simp
    | some pr =>
      obtain ⟨p, pos'⟩ := pr
      simp only [colorNext, List.map_cons]
      rw [ih pos' bpp (uncompressedNext bpp data).2]

/-- The coordinates of every closed-form position lie inside the image. -/
theorem posAt_bounds (w h : Nat) (origin : ImageOrigin) (k : Nat)
    (hw : 0 < w) (hk : k < w * h) :
    0 ≤ (posAt w h origin k).1 ∧ (posAt w h origin k).1 < (w : Int) ∧
    0 ≤ (posAt w h origin k).2 ∧ (posAt w h origin k).2 < (h : Int) := by
  have hr : k % w < w := Nat.mod_lt _ hw
  have hq : k / w < h := by
    rw [Nat.div_lt_iff_lt_mul hw, Nat.mul_comm]
    exact hk
  cases hb : origin.isBottom
  all_goals
    simp only [posAt, stateAt, hb, Bool.false_eq_true, eq_self_iff_true, if_false, if_true]
    generalize hR : k % w = r at hr
    generalize hQ : k / w = q at hq
    omega

/-- C10 (implicit invariant): for every image with `width ≥ 1`, whatever the
origin, the color decoder (either compression, any data) and the fuel, the
raw pixel iterator emits at most `width*height` pixels and every emitted
pixel's position lies inside the image bounds. -/
theorem raw_pixels_bounded (w h : Nat) (origin : ImageOrigin) (cs : ColorIter) (fuel : Nat)
    (hw : 1 ≤ w) :
    (pixelsFrom ⟨w, h, origin, initPosition h origin, cs⟩ fuel).length ≤ w * h ∧
    ∀ pix ∈ pixelsFrom ⟨w, h, origin, initPosition h origin, cs⟩ fuel,
      0 ≤ pix.position.1 ∧ pix.position.1 < (w : Int) ∧
      0 ≤ pix.position.2 ∧ pix.position.2 < (h : Int) := by
  have hpre := pixelsFrom_positions_prefix w h origin fuel (initPosition h origin) cs
  by_cases hh : h = 0
  · subst hh
    rw [positionsFrom_height_zero] at hpre
    have hnil : (pixelsFrom ⟨w, 0, origin, initPosition 0 origin, cs⟩ fuel).map
        RawPixel.position = [] := List.prefix_nil.mp hpre
    have hempty : pixelsFrom ⟨w, 0, origin, initPosition 0 origin, cs⟩ fuel = [] :=
      List.map_eq_nil_iff.mp hnil
    simp [hempty]
  · have hpos : positionsFrom w h origin (initPosition h origin) fuel =
        (closedPositions w h origin).take fuel := by
      rw [initPosition_eq_stateAt w h origin (by omega),
        positionsFrom_stateAt w h origin (by omega) fuel 0 (Nat.zero_le _)]
      simp
    rw [hpos] at hpre
    constructor
    · have h1 := hpre.length_le
      simp only [List.length_map] at h1
      have h2 : ((closedPositions w h origin).take fuel).length ≤ w * h := by
        simp [closedPositions]
      omega
    · intro pix hpix
      have hmem : pix.position ∈ (closedPositions w h origin).take fuel :=
        hpre.subset (List.mem_map_of_mem RawPixel.position hpix)
      have hmem2 : pix.position ∈ closedPositions w h origin :=
        List.take_subset fuel _ hmem
      simp only [closedPositions, List.mem_map, List.mem_range] at hmem2
      obtain ⟨k, hklt, hkeq⟩ := hmem2
      rw [← hkeq]
      exact posAt_bounds w h origin k (by omega) hklt

/-- Witness for C10 at a concrete input: a 2×2 top-left RLE image with a
malformed one-byte stream emits at most 4 pixels. -/
theorem raw_pixels_bounded_witness :
    1 ≤ 2 ∧
      (pixelsFrom ⟨2, 2, .TopLeft, initPosition 2 .TopLeft,
        .rle .Bits8 ⟨[129], 0, 0, 0⟩⟩ 9).length ≤ 2 * 2 :=
  ⟨by decide,
    (raw_pixels_bounded 2 2 .TopLeft (.rle .Bits8 ⟨[129], 0, 0, 0⟩) 9 (by decide)).1⟩

/-- Construction success is decided entirely by the preamble (header, image
ID, color map); the pixel-data byte range's length is never checked. -/
theorem from_slice_isOk_iff_preamble (data : List Nat) :
    (RawTga.from_slice data).isOk ↔ (rawTgaPreamble data).isOk := by
  unfold RawTga.from_slice rawTgaPreamble
  cases h1 : TgaHeader.parse data with
  | none => rfl
  | some hdr =>
    obtain ⟨header, input⟩ := hdr
    dsimp only
    cases h2 : parse_image_id input header with
    | none => exact Iff.rfl
    | some pid =>
      obtain ⟨imageId, input2⟩ := pid
      dsimp only
      cases h3 : ColorMap.parse input2 header with
      | error e => exact Iff.rfl
      | ok cm =>
        obtain ⟨colorMap, input3⟩ := cm
        exact Iff.rfl

/-- C5: if construction succeeded on an uncompressed image whose pixel-data
range is shorter than `width*height*bytes_per_pixel`, then (construction
success never depends on the pixel-data length;) once the data is too short
for one more pixel every further color is zero-valued with the cursor stuck,
and the pixel iterator still emits exactly `min fuel (width*height)` pixels —
in particular exactly `width*height` once the fuel covers the image — and
then terminates. -/
theorem uncompressed_truncated_iteration (data : List Nat) (t : RawTga) (fuel : Nat)
    (hok : RawTga.from_slice data = .ok t)
    (hunc : t.compression = .Uncompressed)
    (hshort : t.pixelData.length < t.width * t.height * t.bpp.bytes) :
    (∀ d : List Nat, (RawTga.from_slice d).isOk ↔ (rawTgaPreamble d).isOk) ∧
    (∀ rest : List Nat, rest.length < t.bpp.bytes →
      colorNext (.uncompressed t.bpp rest) = (some 0, .uncompressed t.bpp rest)) ∧
    (pixelsFrom (RawPixels.new t) fuel).length = min fuel (t.width * t.height) := by
  refine ⟨from_slice_isOk_iff_preamble, ?_, ?_⟩
  · intro rest hrest
    simp [colorNext, uncompressedNext, (nextColor_none_iff t.bpp rest).mpr hrest]
  · have hwh : 0 < t.width * t.height := by
      rcases Nat.eq_zero_or_pos (t.width * t.height) with h | h
      · rw [h, Nat.zero_mul] at hshort
        omega
      · exact h
    have hw : 0 < t.width := by
      rcases Nat.eq_zero_or_pos t.width with h | h
      · rw [h, Nat.zero_mul] at hwh
        omega
      · exact h
    have hh : 0 < t.height := by
      rcases Nat.eq_zero_or_pos t.height with h | h
      · rw [h, Nat.mul_zero] at hwh
        omega
      · exact h
    unfold RawPixels.new
    rw [hunc]
    have hmap := pixelsFrom_uncompressed_map_position t.width t.height t.imageOrigin fuel
      (initPosition t.height t.imageOrigin) t.bpp t.pixelData
    have hlen : (pixelsFrom ⟨t.width, t.height, t.imageOrigin,
        initPosition t.height t.imageOrigin, .uncompressed t.bpp t.pixelData⟩ fuel).length =
        (positionsFrom t.width t.height t.imageOrigin
          (initPosition t.height t.imageOrigin) fuel).length := by
      rw [← hmap, List.length_map]
    rw [hlen, initPosition_eq_stateAt t.width t.height t.imageOrigin hh,
      positionsFrom_stateAt t.width t.height t.imageOrigin hw fuel 0 (Nat.zero_le _)]
    simp [closedPositions]

/-- Witness for C5: a 22-byte uncompressed 24-bit 2×2 true-color file whose
pixel data holds only 4 of the 12 required bytes still constructs, and its
iterator yields exactly 4 pixels with fuel to spare. -/
theorem uncompressed_truncated_iteration_witness :
    RawTga.from_slice
        [0, 0, 2, 0, 0, 0, 0, 0, 0, 0, 0, 0, 2, 0, 2, 0, 24, 32, 1, 2, 3, 4] =
      .ok ⟨none, [1, 2, 3, 4], 2, 2, .TrueColor, .Uncompressed, .Bits24, .TopLeft⟩ ∧
    (pixelsFrom (RawPixels.new
        ⟨none, [1, 2, 3, 4], 2, 2, .TrueColor, .Uncompressed, .Bits24, .TopLeft⟩) 9).length =
      min 9
        ((⟨none, [1, 2, 3, 4], 2, 2, .TrueColor, .Uncompressed, .Bits24,
          .TopLeft⟩ : RawTga).width *
          (⟨none, [1, 2, 3, 4], 2, 2, .TrueColor, .Uncompressed, .Bits24,
            .TopLeft⟩ : RawTga).height) :=
  ⟨by decide,
    (uncompressed_truncated_iteration
      [0, 0, 2, 0, 0, 0, 0, 0, 0, 0, 0, 0, 2, 0, 2, 0, 24, 32, 1, 2, 3, 4]
      ⟨none, [1, 2, 3, 4], 2, 2, .TrueColor, .Uncompressed, .Bits24, .TopLeft⟩ 9
      (by decide) (by decide) (by decide)).2.2⟩

/-- C7: after raw parsing succeeds, typed construction succeeds exactly for
the combinations (8-bit, black-and-white) → Gray8, (16-bit, non-monochrome)
→ Rgb555 and (24-bit, non-monochrome) → Rgb888 of the effective color depth
and the data kind; every other combination fails with the unsupported-format
error naming the image's type and bit depth. -/
theorem tga_from_slice_classification (data : List Nat) (raw : RawTga)
    (hok : RawTga.from_slice data = .ok raw) :
    ((Tga.from_slice data).isOk ↔
      ((raw.color_bpp = .Bits8 ∧ raw.dataType = .BlackAndWhite) ∨
        (raw.color_bpp = .Bits16 ∧ raw.dataType ≠ .BlackAndWhite) ∨
        (raw.color_bpp = .Bits24 ∧ raw.dataType ≠ .BlackAndWhite))) ∧
    (raw.color_bpp = .Bits8 ∧ raw.dataType = .BlackAndWhite →
      Tga.from_slice data = .ok (raw, .Gray8)) ∧
    (raw.color_bpp = .Bits16 ∧ raw.dataType ≠ .BlackAndWhite →
      Tga.from_slice data = .ok (raw, .Rgb555)) ∧
    (raw.color_bpp = .Bits24 ∧ raw.dataType ≠ .BlackAndWhite →
      Tga.from_slice data = .ok (raw, .Rgb888)) ∧
    (¬((raw.color_bpp = .Bits8 ∧ raw.dataType = .BlackAndWhite) ∨
        (raw.color_bpp = .Bits16 ∧ raw.dataType ≠ .BlackAndWhite) ∨
        (raw.color_bpp = .Bits24 ∧ raw.dataType ≠ .BlackAndWhite)) →
      Tga.from_slice data = .error
        (.UnsupportedTgaType raw.dataType raw.compression raw.color_bpp)) := by
  unfold Tga.from_slice
  rw [hok]
  cases hcb : raw.color_bpp <;> cases hdt : raw.dataType <;>
    simp [RawTga.is_monochrome, hcb, hdt, Except.isOk, Except.toBool]

/-- Witness for C7: a 19-byte 8-bit black-and-white file classifies as
8-bit grayscale. -/
theorem tga_from_slice_classification_witness :
    Tga.from_slice [0, 0, 3, 0, 0, 0, 0, 0, 0, 0, 0, 0, 1, 0, 1, 0, 8, 32, 255] =
      .ok (⟨none, [255], 1, 1, .BlackAndWhite, .Uncompressed, .Bits8, .TopLeft⟩, .Gray8) :=
  (tga_from_slice_classification
    [0, 0, 3, 0, 0, 0, 0, 0, 0, 0, 0, 0, 1, 0, 1, 0, 8, 32, 255]
    ⟨none, [255], 1, 1, .BlackAndWhite, .Uncompressed, .Bits8, .TopLeft⟩
    (by decide)).2.1 (by decide)

theorem leNum_append_zero : ∀ l : List Nat, leNum (l ++ [0]) = leNum l := by
  intro l
  induction l with
  | nil => simp [leNum]
  | cons b tl ih => simp [leNum, ih]

theorem nextColorChecked_ok (bpp : Bpp) (data : List Nat) :
    nextColorChecked bpp data = .ok (nextColor bpp data) := by
  cases bpp
  case Bits8 => cases data <;> rfl
  all_goals
    simp only [nextColorChecked, nextColor]
    split
    · rename_i hlen
      simp [checkedTryInto, checkedCopyInto4, checkedDrop, List.length_take,
        Nat.min_eq_left hlen, hlen, leNum_append_zero]
    · rfl

theorem uncompressedNextChecked_ok (bpp : Bpp) (data : List Nat) :
    uncompressedNextChecked bpp data = .ok (uncompressedNext bpp data) := by
  simp only [uncompressedNextChecked, uncompressedNext, nextColorChecked_ok bpp data]
  cases hnc : nextColor bpp data with
  | none => rfl
  | some v => obtain ⟨c, rest⟩ := v; rfl

theorem rleNextChecked_ok (bpp : Bpp) (s : RleState) :
    rleNextChecked bpp s = .ok (rleNext bpp s) := by
  obtain ⟨d, pix, r, t⟩ := s
  by_cases hr : 0 < r
  · simp only [rleNextChecked, rleNext, rleEmitRepeat, checkedSub]
    rw [if_pos hr, if_pos hr, if_pos (show 1 ≤ r by omega)]
  · by_cases ht : 0 < t
    · simp only [rleNextChecked, rleNext, rleEmitRaw, checkedSub]
      rw [if_neg hr, if_neg hr, if_pos ht, if_pos ht, if_pos (show 1 ≤ t by omega)]
      simp only [nextColorChecked_ok]
      cases hnc : nextColor bpp d with
      | none => rfl
      | some v => obtain ⟨c, rest⟩ := v; rfl
    · cases d with
      | nil =>
        simp only [rleNextChecked, rleNext]
        rw [if_neg hr, if_neg hr, if_neg ht, if_neg ht]
      | cons b rest =>
        by_cases hbit : b &&& 0x80 ≠ 0
        · simp only [rleNextChecked, rleNext]
          rw [if_neg hr, if_neg hr, if_neg ht, if_neg ht]
          simp only [if_pos hbit, nextColorChecked_ok]
          cases hnc : nextColor bpp rest with
          | none => rfl
          | some v =>
            obtain ⟨p, rest2⟩ := v
            simp [rleEmitRepeat, checkedSub]
        · simp only [rleNextChecked, rleNext]
          rw [if_neg hr, if_neg hr, if_neg ht, if_neg ht]
          simp only [if_neg hbit, nextColorChecked_ok, rleEmitRaw, checkedSub]
          rw [if_pos (show 1 ≤ (b &&& 0x7F) + 1 by omega)]
          cases hnc : nextColor bpp rest with
          | none => rfl
          | some v => obtain ⟨c, rest2⟩ := v; rfl

theorem colorNextChecked_ok (cs : ColorIter) :
    colorNextChecked cs = .ok (colorNext cs) := by
  cases cs with
  | uncompressed bpp data =>
    simp [colorNextChecked, colorNext, uncompressedNextChecked_ok]
  | rle bpp s =>
    simp [colorNextChecked, colorNext, rleNextChecked_ok]

theorem rawPixelsNextChecked_ok (s : RawPixelsState) :
    rawPixelsNextChecked s = .ok (rawPixelsNext s) := by
  simp only [rawPixelsNextChecked, rawPixelsNext]
  cases hnp : nextPosition s.width s.height s.origin s.pos with
  | none => rfl
  | some pr =>
    obtain ⟨p, pos2⟩ := pr
    simp only [colorNextChecked_ok]
    cases hcn : colorNext s.colors with
    | mk copt cs2 =>
      cases copt with
      | none => rfl
      | some c => rfl

/-- C8: iteration never panics and never fails — every checked run of the
pixel iterator (all slice accesses and counter updates instrumented with
their Rust panic conditions) returns `ok` with exactly the pixels of the
plain model, for every state and fuel; truncated or malformed data can only
produce zero pixels or stop the stream. -/
theorem pixels_iteration_never_panics (s : RawPixelsState) (fuel : Nat) :
    rawPixelsNextChecked s = .ok (rawPixelsNext s) ∧
    pixelsFromChecked s fuel = .ok (pixelsFrom s fuel) := by
  refine ⟨rawPixelsNextChecked_ok s, ?_⟩
  induction fuel generalizing s with
  | zero => rfl
  | succ fuel ih =>
    simp only [pixelsFromChecked, pixelsFrom, rawPixelsNextChecked_ok]
    cases hnx : rawPixelsNext s with
    | mk popt s' =>
      cases popt with
      | none => rfl
      | some pix =>
        dsimp only
        rw [ih s']

/-- C9 counterexample: for a 1×1 top-right image the facade does not emit the
mirrored pixel the claim describes — it reaches the `todo!()` panic path. -/
theorem draw_right_origin_counterexample :
    draw_colors 1 1 .TopRight [5] = .todo ∧
      draw_colors 1 1 .TopRight [5] ≠ specMirroredDraw 1 1 .TopRight [((0, 0), 5)] := by
  constructor
  · rfl
  · decide

/-- C9 amended: for every non-degenerate image with a top-right or
bottom-right origin, `draw_colors` is unimplemented: it reaches `todo!()`
(a panic), emitting no pixels at all. -/
theorem draw_right_origin_todo (w h : Nat) (origin : ImageOrigin) (colors : List Nat)
    (hw : 1 ≤ w) (hh : 1 ≤ h) (ho : origin = .TopRight ∨ origin = .BottomRight) :
    draw_colors w h origin colors = .todo := by
  rcases ho with rfl | rfl
  all_goals
    unfold draw_colors
    rw [if_neg (by omega)]

/-- Witness for the amended C9 at a concrete input. -/
theorem draw_right_origin_todo_witness :
    1 ≤ 2 ∧ draw_colors 2 3 .BottomRight [1, 2] = .todo :=
  ⟨by decide,
    draw_right_origin_todo 2 3 .BottomRight [1, 2] (by decide) (by decide) (Or.inr rfl)⟩

end Tinytga
